import Mathlib

/-!
# contextual.Dialer: an interleaving model of `DialContext` and `dial`

The Go package `contextual` wraps a blocking dialer so that it honours a
`context.Context`.  `Dialer.DialContext` runs in the calling goroutine and
`Dialer.dial` in a goroutine of its own; they meet on an unbuffered channel
`c` and both watch `ctx.Done()`.

The embedding is a labelled transition system.  A state holds the program
counter of each of the two goroutines, the context, the clock and a log of
what was done to the outside world (base dialer operations invoked,
connections closed).  One `Action` is one atomic step of the caller, of the
background goroutine, of the rendezvous on `c`, or of the environment
(the context terminating, time passing).  Every interleaving of these steps
is a run.  The two `select`s rendezvous on `c` only while `ctx.Done()` is open;
once it is closed each `select` takes the case `<-ctx.Done()`.

The external interfaces are modelled by their documented contracts:
* `context.Context`: `Done()` is closed exactly when `Err()` is non-nil, a
  non-nil `Err()` never changes again, `Deadline()` is constant;
* the base dialer's operations are functions of their arguments (each is
  invoked at most once per call, so this loses no behaviour);
* `time.Until(t)` is `t.Sub(time.Now())`, which saturates at the bounds of
  `time.Duration` (a signed 64-bit count of nanoseconds).
-/

namespace contextual

/-! ## Data model -/

/-- A non-nil `net.Conn`, identified by a number; `Option Conn` is a `net.Conn`
that may be nil. -/
abbrev Conn := Nat

/-- A non-nil `error` value, identified by a number. -/
abbrev GoError := Nat

/-- An instant (`time.Time`), in nanoseconds. -/
abbrev Time := Int

/-- A `time.Duration`, in nanoseconds. -/
abbrev Duration := Int

/-- The struct `conAir` of dialer.go: what a dial returned. -/
structure conAir where
  conn : Option Conn
  err : Option GoError
deriving DecidableEq, Repr

/-- A `context.Context` as far as the package looks at it: its deadline, if any,
and its termination error, `none` while it is live. -/
structure Context where
  deadline : Option Time
  err : Option GoError
deriving DecidableEq, Repr

/-- The method `ctx.Err()`. -/
def Context.Err (ctx : Context) : Option GoError := ctx.err

/-- The method `ctx.Deadline()`: `some t` stands for `(t, true)`. -/
def Context.Deadline (ctx : Context) : Option Time := ctx.deadline

/-- Whether the channel `ctx.Done()` is closed, so that a receive from it can
proceed. -/
def Context.Done (ctx : Context) : Bool := ctx.err.isSome

/-- The largest `time.Duration`. -/
def maxDuration : Duration := 2 ^ 63 - 1

/-- The smallest `time.Duration`. -/
def minDuration : Duration := -(2 ^ 63)

/-- The method `t.Sub(u)` of `time.Time`: the difference, saturated to the range
of `time.Duration`. -/
def timeSub (t u : Time) : Duration :=
  if maxDuration < t - u then maxDuration
  else if t - u < minDuration then minDuration
  else t - u

/-- The function `time.Until(t)` when the clock reads `now`. -/
def timeUntil (now t : Time) : Duration := timeSub t now

/-- The base dialer.  Every `SimpleDialer` has `Dial`; the type assertions
`d.SimpleDialer.(contextDialer)` and `d.SimpleDialer.(timeoutDialer)` succeed
exactly when the optional methods are present. -/
structure SimpleDialer where
  Dial : String → String → conAir
  DialContext : Option (Context → String → String → conAir)
  DialTimeout : Option (String → String → Duration → conAir)

/-- The struct `Dialer`, which embeds a `SimpleDialer`. -/
structure Dialer where
  SimpleDialer : SimpleDialer

/-! ## Goroutine states -/

/-- Which `return` statement of `DialContext` produced the result. -/
inductive Resolution where
  | fastFail
  | delegated
  | handoff
  | cancelled
deriving DecidableEq, Repr

/-- Program counter of the goroutine running `DialContext`. -/
inductive CallerPc where
  | entry
  | checked
  | waiting
  | returned (res : conAir) (via : Resolution)
deriving DecidableEq, Repr

/-- Program counter of the goroutine running `dial`, with the value of its local
`res` once it has one. -/
inductive BgPc where
  | notStarted
  | spawned
  | dialing (res : conAir)
  | selecting (res : conAir)
  | sent (res : conAir)
  | finished (res : conAir)
deriving DecidableEq, Repr

/-- An operation of the base dialer, with the arguments it was invoked with. -/
inductive Call where
  | Dial (network address : String)
  | DialTimeout (network address : String) (timeout : Duration)
  | DialContext (ctx : Context) (network address : String)
deriving DecidableEq, Repr

/-- The three operations a base dialer may offer. -/
inductive Op where
  | Dial
  | DialTimeout
  | DialContext
deriving DecidableEq, Repr

/-- Which operation a logged call is. -/
def Call.op : Call → Op
  | .Dial _ _ => .Dial
  | .DialTimeout _ _ _ => .DialTimeout
  | .DialContext _ _ _ => .DialContext

/-- The network argument of a logged call. -/
def Call.network : Call → String
  | .Dial n _ => n
  | .DialTimeout n _ _ => n
  | .DialContext _ n _ => n

/-- The address argument of a logged call. -/
def Call.address : Call → String
  | .Dial _ a => a
  | .DialTimeout _ a _ => a
  | .DialContext _ _ a => a

/-- The state of one call of `DialContext`. -/
structure State where
  clock : Time
  ctx : Context
  caller : CallerPc
  bg : BgPc
  calls : List Call
  closed : List Conn
deriving DecidableEq, Repr

/-- One atomic step: of the caller, of the background goroutine, the rendezvous
on the channel `c`, the context terminating with an error, the clock
advancing. -/
inductive Action where
  | caller
  | bg
  | handoff
  | cancel (e : GoError)
  | tick (d : Nat)
deriving DecidableEq, Repr

/-! ## The two functions of dialer.go -/

/-- One step of `Dialer.DialContext` (dialer.go lines 24-39), except the receive
`res := <-c`, which is `handoff`.
* `entry`: `if err := ctx.Err(); err != nil { return nil, err }`;
* `checked`: the type assertion to `contextDialer`; either the delegated call and
  its `return`, or `make(chan conAir)` and `go d.dial(...)`;
* `waiting`: the case `<-ctx.Done()` of the `select`, then `return nil, ctx.Err()`. -/
def DialContext (d : Dialer) (network address : String) (s : State) : Option State :=
  match s.caller with
  | .entry =>
    match s.ctx.Err with
    | some err => some { s with caller := .returned ⟨none, some err⟩ .fastFail }
    | none => some { s with caller := .checked }
  | .checked =>
    match d.SimpleDialer.DialContext with
    | some cd =>
      some { s with
        calls := s.calls ++ [Call.DialContext s.ctx network address]
        caller := .returned (cd s.ctx network address) .delegated }
    | none => some { s with bg := .spawned, caller := .waiting }
  | .waiting =>
    if s.ctx.Done then some { s with caller := .returned ⟨none, s.ctx.Err⟩ .cancelled }
    else none
  | .returned _ _ => none

/-- What `dial` does after its `select` took the case `<-ctx.Done()`:
`if res.err == nil && res.conn != nil { res.conn.Close() }`. -/
def closeLate (res : conAir) (closed : List Conn) : List Conn :=
  match res.err, res.conn with
  | none, some conn => closed ++ [conn]
  | _, _ => closed

/-- One step of `Dialer.dial` (dialer.go lines 41-59), except the send `c <- res`,
which is `handoff`.
* `spawned`: the type assertion to `timeoutDialer`, `ctx.Deadline()`, and the
  invocation of `DialTimeout` with `time.Until(deadline)` or of `Dial`;
* `dialing`: the base operation returns and `res` is assigned;
* `selecting`: the case `<-ctx.Done()` of the `select`, then the late close. -/
def dial (d : Dialer) (network address : String) (s : State) : Option State :=
  match s.bg with
  | .spawned =>
    match d.SimpleDialer.DialTimeout, s.ctx.Deadline with
    | some td, some deadline =>
      some { s with
        calls := s.calls ++ [Call.DialTimeout network address (timeUntil s.clock deadline)]
        bg := .dialing (td network address (timeUntil s.clock deadline)) }
    | _, _ =>
      some { s with
        calls := s.calls ++ [Call.Dial network address]
        bg := .dialing (d.SimpleDialer.Dial network address) }
  | .dialing res => some { s with bg := .selecting res }
  | .selecting res =>
    if s.ctx.Done then some { s with bg := .finished res, closed := closeLate res s.closed }
    else none
  | _ => none

/-- The rendezvous on the unbuffered channel `c`: the case `c <- res` of the
`select` in `dial` together with the case `res := <-c` of the `select` in
`DialContext`, followed by both `return`s.  It needs both goroutines at their
`select` and `ctx.Done()` still open: closing `ctx.Done()` commits a `select`
that is parked on it to that case, and a `select` entered afterwards finds
`ctx.Done()` ready and no partner left on `c`. -/
def handoff (s : State) : Option State :=
  match s.caller, s.bg with
  | .waiting, .selecting res =>
    if s.ctx.Done then none
    else some { s with caller := .returned res .handoff, bg := .sent res }
  | _, _ => none

/-- The context terminates with error `e` (cancellation or expiry); a context
that has already terminated keeps its error. -/
def cancel (e : GoError) (s : State) : State :=
  match s.ctx.err with
  | none => { s with ctx := { s.ctx with err := some e } }
  | some _ => s

/-- One step of the system. -/
def step (d : Dialer) (network address : String) (s : State) : Action → Option State
  | .caller => DialContext d network address s
  | .bg => dial d network address s
  | .handoff => handoff s
  | .cancel e => some (cancel e s)
  | .tick dt => some { s with clock := s.clock + dt }

/-- A run: the steps of a schedule, one after the other; `none` when a step of
the schedule is not enabled. -/
def run (d : Dialer) (network address : String) : List Action → State → Option State
  | [], s => some s
  | a :: rest, s =>
    match step d network address s a with
    | some s' => run d network address rest s'
    | none => none

/-- The state in which `DialContext(ctx, network, address)` is called. -/
def init (ctx : Context) (now : Time) : State :=
  { clock := now, ctx := ctx, caller := .entry, bg := .notStarted, calls := [], closed := [] }

/-! ## The base dialers of dialer_test.go -/

/-- The error `errPass`. -/
def errPass : GoError := 1

/-- The error `errFail`. -/
def errFail : GoError := 2

/-- The error `context.Canceled`. -/
def Canceled : GoError := 3

/-- The error `context.DeadlineExceeded`. -/
def DeadlineExceeded : GoError := 4

/-- The connection `connPass`. -/
def connPass : Conn := 10

/-- The base dialer `testNeverDial`. -/
def testNeverDial : Dialer :=
  ⟨{ Dial := fun _ _ => ⟨none, some errFail⟩, DialContext := none, DialTimeout := none }⟩

/-- The base dialer `testDialContext`. -/
def testDialContext : Dialer :=
  ⟨{ Dial := fun _ _ => ⟨none, some errFail⟩
     DialContext := some (fun _ _ _ => ⟨none, some errPass⟩)
     DialTimeout := none }⟩

/-- The base dialer `testDialTimeout`. -/
def testDialTimeout : Dialer :=
  ⟨{ Dial := fun _ _ => ⟨none, some errFail⟩
     DialContext := none
     DialTimeout := some (fun _ _ _ => ⟨none, some errPass⟩) }⟩

/-- The base dialer `testDialTimeoutNoDeadline`. -/
def testDialTimeoutNoDeadline : Dialer :=
  ⟨{ Dial := fun _ _ => ⟨none, some errPass⟩
     DialContext := none
     DialTimeout := some (fun _ _ _ => ⟨none, some errFail⟩) }⟩

/-- The base dialer `testDialSucceed`. -/
def testDialSucceed : Dialer :=
  ⟨{ Dial := fun _ _ => ⟨some connPass, none⟩, DialContext := none, DialTimeout := none }⟩

/-- The base dialer `testDialLate` with its sentinel connection. -/
def testDialLate (sentinel : Conn) : Dialer :=
  ⟨{ Dial := fun _ _ => ⟨some sentinel, none⟩, DialContext := none, DialTimeout := none }⟩

/-! ## Notions used to state the claims -/

/-- Exactly one component of the pair is non-nil. -/
def exactlyOne (r : conAir) : Prop :=
  (r.conn ≠ none ∧ r.err = none) ∨ (r.conn = none ∧ r.err ≠ none)

/-- Every operation the base dialer offers returns, for all arguments, a pair
with exactly one non-nil component. -/
def WellBehaved (d : Dialer) : Prop :=
  (∀ n a, exactlyOne (d.SimpleDialer.Dial n a)) ∧
  (∀ cd, d.SimpleDialer.DialContext = some cd → ∀ cx n a, exactlyOne (cd cx n a)) ∧
  (∀ td, d.SimpleDialer.DialTimeout = some td → ∀ n a t, exactlyOne (td n a t))

/-- The operation that the priority rule of the specification selects: the
context-aware dial if the base dialer has it; else the timeout dial if the base
dialer has it and the context carries a deadline; else the plain dial. -/
def specChosenOp (d : Dialer) (ctx : Context) : Op :=
  if d.SimpleDialer.DialContext.isSome then Op.DialContext
  else if d.SimpleDialer.DialTimeout.isSome && ctx.Deadline.isSome then Op.DialTimeout
  else Op.Dial

/-- A base dialer whose `Dial` returns `(nil, nil)`. -/
def dialNothing : Dialer :=
  ⟨{ Dial := fun _ _ => ⟨none, none⟩, DialContext := none, DialTimeout := none }⟩

/-- A base dialer whose `DialContext` returns both a connection and an error. -/
def dialBoth : Dialer :=
  ⟨{ Dial := fun _ _ => ⟨none, some errFail⟩
     DialContext := some (fun _ _ _ => ⟨some connPass, some errFail⟩)
     DialTimeout := none }⟩

/-- The pair the blocking dial of the background goroutine returns or has
returned, once the operation has been invoked. -/
def BgPc.outcome : BgPc → Option conAir
  | .notStarted => none
  | .spawned => none
  | .dialing res => some res
  | .selecting res => some res
  | .sent res => some res
  | .finished res => some res

/-- How far the background goroutine has got. -/
def BgPc.phase : BgPc → Nat
  | .notStarted => 0
  | .spawned => 1
  | .dialing _ => 2
  | .selecting _ => 3
  | .sent _ => 4
  | .finished _ => 4

/-- How many sends on the channel `c` the background goroutine can still make. -/
def BgPc.handoffsLeft (b : BgPc) : Nat := if b.phase ≤ 3 then 1 else 0

/-! ## The invariant -/

/-- The log `calls` and the outcome `res` are those of the one blocking operation
that `dial` invokes for a context with the deadline of `ctx0`. -/
def Dialed (d : Dialer) (network address : String) (ctx0 : Context)
    (calls : List Call) (res : conAir) : Prop :=
  (∃ td dl t, d.SimpleDialer.DialTimeout = some td ∧ ctx0.deadline = some dl ∧
      calls = [Call.DialTimeout network address t] ∧ res = td network address t) ∨
  ((d.SimpleDialer.DialTimeout = none ∨ ctx0.deadline = none) ∧
      calls = [Call.Dial network address] ∧ res = d.SimpleDialer.Dial network address)

/-- The call went past the fast-fail check and the base dialer has no
`DialContext`, so the background dial is used. -/
def Fallback (d : Dialer) (ctx0 : Context) : Prop :=
  ctx0.err = none ∧ d.SimpleDialer.DialContext = none

/-- The result `r` is `(nil, ctx.Err())` of a terminated context. -/
def Cancelled (r : conAir) (ctx : Context) : Prop :=
  r = ⟨none, ctx.err⟩ ∧ ctx.err ≠ none

/-- The invariant, by the program counters of the two goroutines. -/
def InvAt (d : Dialer) (network address : String) (ctx0 : Context) (passed : Bool)
    (ctx : Context) (calls : List Call) (closed : List Conn) : CallerPc → BgPc → Prop
  | .entry, .notStarted => passed = false ∧ calls = [] ∧ closed = []
  | .returned r .fastFail, .notStarted =>
    passed = false ∧ calls = [] ∧ closed = [] ∧ Cancelled r ctx
  | .checked, .notStarted => ctx0.err = none ∧ calls = [] ∧ closed = []
  | .returned r .delegated, .notStarted =>
    ctx0.err = none ∧ closed = [] ∧
    ∃ cd cx, d.SimpleDialer.DialContext = some cd ∧ cx.deadline = ctx0.deadline ∧
      (∀ e, cx.err = some e → ctx.err = some e) ∧
      calls = [Call.DialContext cx network address] ∧ r = cd cx network address
  | .waiting, .spawned => Fallback d ctx0 ∧ calls = [] ∧ closed = []
  | .waiting, .dialing res =>
    Fallback d ctx0 ∧ Dialed d network address ctx0 calls res ∧ closed = []
  | .waiting, .selecting res =>
    Fallback d ctx0 ∧ Dialed d network address ctx0 calls res ∧ closed = []
  | .returned r .handoff, .sent res =>
    Fallback d ctx0 ∧ Dialed d network address ctx0 calls res ∧ closed = [] ∧ r = res
  | .returned r .cancelled, .spawned =>
    Fallback d ctx0 ∧ Cancelled r ctx ∧ calls = [] ∧ closed = []
  | .returned r .cancelled, .dialing res =>
    Fallback d ctx0 ∧ Cancelled r ctx ∧ Dialed d network address ctx0 calls res ∧ closed = []
  | .returned r .cancelled, .selecting res =>
    Fallback d ctx0 ∧ Cancelled r ctx ∧ Dialed d network address ctx0 calls res ∧ closed = []
  | .returned r .cancelled, .finished res =>
    Fallback d ctx0 ∧ Cancelled r ctx ∧ Dialed d network address ctx0 calls res ∧
      closed = closeLate res []
  | .waiting, .finished res =>
    Fallback d ctx0 ∧ ctx.err ≠ none ∧ Dialed d network address ctx0 calls res ∧
      closed = closeLate res []
  | _, _ => False

/-- The invariant of a call made with context `ctx0`.  With `passed` set it is the
invariant of the states after the fast-fail check found the context live. -/
def Inv (d : Dialer) (network address : String) (ctx0 : Context) (passed : Bool)
    (s : State) : Prop :=
  s.ctx.deadline = ctx0.deadline ∧ (∀ e, ctx0.err = some e → s.ctx.err = some e) ∧
  InvAt d network address ctx0 passed s.ctx s.calls s.closed s.caller s.bg

/-! ## Lemmas on runs -/

theorem run_nil (d : Dialer) (network address : String) (s : State) :
    run d network address [] s = some s := rfl

theorem run_cons (d : Dialer) (network address : String) (a : Action) (rest : List Action)
    (s s' : State) (h : step d network address s a = some s') :
    run d network address (a :: rest) s = run d network address rest s' := by
  simp [run, h]

theorem run_cons_some {d : Dialer} {network address : String} {a : Action}
    {rest : List Action} {s t : State} (h : run d network address (a :: rest) s = some t) :
    ∃ s', step d network address s a = some s' ∧ run d network address rest s' = some t := by
  unfold run at h
  cases hs : step d network address s a with
  | none => simp [hs] at h
  | some s' => exact ⟨s', rfl, by simpa [hs] using h⟩

theorem run_append {d : Dialer} {network address : String} {xs ys : List Action}
    {s t u : State} (h₁ : run d network address xs s = some t)
    (h₂ : run d network address ys t = some u) :
    run d network address (xs ++ ys) s = some u := by
  induction xs generalizing s with
  | nil => simp [run] at h₁; subst h₁; simpa using h₂
  | cons a rest ih =>
    obtain ⟨s', hs, hr⟩ := run_cons_some h₁
    rw [List.cons_append, run_cons d network address a _ s s' hs]
    exact ih hr

/-- A property that holds at the start of a run and is kept by every step holds
at its end. -/
theorem run_induction {d : Dialer} {network address : String} (P : State → Prop)
    (hstep : ∀ s a s', P s → step d network address s a = some s' → P s')
    {acts : List Action} {s t : State} (h0 : P s)
    (h : run d network address acts s = some t) : P t := by
  induction acts generalizing s with
  | nil => simp [run] at h; subst h; exact h0
  | cons a rest ih =>
    obtain ⟨s', hs, hr⟩ := run_cons_some h
    exact ih (hstep s a s' h0 hs) hr

theorem inv_init (d : Dialer) (network address : String) (ctx : Context) (now : Time) :
    Inv d network address ctx false (init ctx now) := by
  simp [Inv, InvAt, init]

theorem ctx0_live {ctx0 ctx : Context} (herr : ∀ e, ctx0.err = some e → ctx.err = some e)
    (h : ctx.err = none) : ctx0.err = none := by
  cases h0 : ctx0.err with
  | none => rfl
  | some e1 => rw [herr e1 h0] at h; cases h

theorem inv_step (d : Dialer) (network address : String) (ctx0 : Context) (passed : Bool)
    (s : State) (a : Action) (s' : State) (hinv : Inv d network address ctx0 passed s)
    (hs : step d network address s a = some s') : Inv d network address ctx0 passed s' := by
  obtain ⟨clock, ctx, caller, bg, calls, closed⟩ := s
  obtain ⟨hdl, herr, hm⟩ := hinv
  dsimp only at hdl herr hm
  cases a with
  | tick dt =>
    simp only [step, Option.some.injEq] at hs
    subst hs
    exact ⟨hdl, herr, hm⟩
  | cancel e =>
    simp only [step, Option.some.injEq] at hs
    subst hs
    cases hce : ctx.err with
    | some e0 =>
      have : cancel e ⟨clock, ctx, caller, bg, calls, closed⟩
          = ⟨clock, ctx, caller, bg, calls, closed⟩ := by simp [cancel, hce]
      rw [this]
      exact ⟨hdl, herr, hm⟩
    | none =>
      have : cancel e ⟨clock, ctx, caller, bg, calls, closed⟩
          = ⟨clock, { ctx with err := some e }, caller, bg, calls, closed⟩ := by
        simp [cancel, hce]
      rw [this]
      have h0 : ctx0.err = none := ctx0_live herr hce
      refine ⟨hdl, by simp [h0], ?_⟩
      dsimp only
      cases caller with
      | returned r via =>
        cases via <;> cases bg <;> simp only [InvAt, Cancelled] at hm ⊢ <;>
          first
          | exact hm
          | (obtain ⟨h1, h2, cd, cx, h3, h4, h5, h6⟩ := hm
             refine ⟨h1, h2, cd, cx, h3, h4, fun e1 he1 => ?_, h6⟩
             rw [h5 e1 he1] at hce
             cases hce)
          | (simp [hce] at hm)
      | _ => cases bg <;> simp only [InvAt] at hm ⊢ <;>
          first | exact hm | exact absurd hce hm.2.1
  | caller =>
    simp only [step, DialContext] at hs
    cases caller with
    | returned r via => simp at hs
    | entry =>
      cases hce : ctx.err with
      | some e0 =>
        simp only [Context.Err, hce, Option.some.injEq] at hs
        subst hs
        refine ⟨hdl, herr, ?_⟩
        cases bg <;> simp only [InvAt] at hm ⊢
        exact ⟨hm.1, hm.2.1, hm.2.2, by simp [Cancelled, hce]⟩
      | none =>
        simp only [Context.Err, hce, Option.some.injEq] at hs
        subst hs
        refine ⟨hdl, herr, ?_⟩
        cases bg <;> simp only [InvAt] at hm ⊢
        exact ⟨ctx0_live herr hce, hm.2.1, hm.2.2⟩
    | checked =>
      cases hcd : d.SimpleDialer.DialContext with
      | some cd =>
        simp only [hcd, Option.some.injEq] at hs
        subst hs
        refine ⟨hdl, herr, ?_⟩
        cases bg <;> simp only [InvAt] at hm ⊢
        exact ⟨hm.1, hm.2.2, cd, ctx, hcd, hdl, fun _ h => h, by simp [hm.2.1], rfl⟩
      | none =>
        simp only [hcd, Option.some.injEq] at hs
        subst hs
        refine ⟨hdl, herr, ?_⟩
        cases bg <;> simp only [InvAt] at hm ⊢
        exact ⟨⟨hm.1, hcd⟩, hm.2.1, hm.2.2⟩
    | waiting =>
      cases hce : ctx.err with
      | none => simp [Context.Done, hce] at hs
      | some e0 =>
        simp only [Context.Done, Context.Err, hce, Option.isSome_some, if_true,
          Option.some.injEq] at hs
        subst hs
        refine ⟨hdl, herr, ?_⟩
        have hC : Cancelled ⟨none, some e0⟩ ctx := by simp [Cancelled, hce]
        cases bg <;> simp only [InvAt] at hm ⊢
        · exact ⟨hm.1, hC, hm.2⟩
        · exact ⟨hm.1, hC, hm.2⟩
        · exact ⟨hm.1, hC, hm.2⟩
        · exact ⟨hm.1, hC, hm.2.2⟩
  | bg =>
    simp only [step, dial] at hs
    cases bg with
    | notStarted => simp at hs
    | sent r => simp at hs
    | finished r => simp at hs
    | spawned =>
      have key : ∃ res cs, s' = ⟨clock, ctx, caller, BgPc.dialing res, calls ++ cs, closed⟩ ∧
          Dialed d network address ctx0 cs res := by
        cases htd : d.SimpleDialer.DialTimeout with
        | none =>
          simp only [htd, Option.some.injEq] at hs
          exact ⟨_, _, hs.symm, Or.inr ⟨Or.inl htd, rfl, rfl⟩⟩
        | some td =>
          cases hd : ctx.deadline with
          | none =>
            simp only [htd, Context.Deadline, hd, Option.some.injEq] at hs
            exact ⟨_, _, hs.symm, Or.inr ⟨Or.inr (by rw [← hdl]; exact hd), rfl, rfl⟩⟩
          | some dl =>
            simp only [htd, Context.Deadline, hd, Option.some.injEq] at hs
            exact ⟨_, _, hs.symm, Or.inl ⟨td, dl, _, htd, by rw [← hdl]; exact hd, rfl, rfl⟩⟩
      obtain ⟨res, cs, rfl, hD⟩ := key
      refine ⟨hdl, herr, ?_⟩
      dsimp only
      cases caller with
      | returned r via =>
        cases via <;> simp only [InvAt] at hm ⊢
        obtain ⟨hF, hC, hcalls, hclosed⟩ := hm
        subst hcalls
        exact ⟨hF, hC, by simpa using hD, hclosed⟩
      | waiting =>
        simp only [InvAt] at hm ⊢
        obtain ⟨hF, hcalls, hclosed⟩ := hm
        subst hcalls
        exact ⟨hF, by simpa using hD, hclosed⟩
      | _ => simp only [InvAt] at hm
    | dialing res =>
      simp only [Option.some.injEq] at hs
      subst hs
      refine ⟨hdl, herr, ?_⟩
      cases caller with
      | returned r via =>
        cases via <;> simp only [InvAt] at hm ⊢
        exact hm
      | waiting => simp only [InvAt] at hm ⊢; exact hm
      | _ => simp only [InvAt] at hm
    | selecting res =>
      cases hce : ctx.err with
      | none => simp [Context.Done, hce] at hs
      | some e0 =>
        simp only [Context.Done, hce, Option.isSome_some, if_true, Option.some.injEq] at hs
        subst hs
        refine ⟨hdl, herr, ?_⟩
        cases caller with
        | returned r via =>
          cases via <;> simp only [InvAt] at hm ⊢
          obtain ⟨hF, hC, hD, hclosed⟩ := hm
          subst hclosed
          exact ⟨hF, hC, hD, rfl⟩
        | waiting =>
          simp only [InvAt] at hm ⊢
          obtain ⟨hF, hD, hclosed⟩ := hm
          subst hclosed
          exact ⟨hF, by simp [hce], hD, rfl⟩
        | _ => simp only [InvAt] at hm
  | handoff =>
    simp only [step, handoff] at hs
    cases caller with
    | waiting =>
      cases bg with
      | selecting res =>
        simp only at hs
        split at hs
        · cases hs
        · simp only [Option.some.injEq] at hs
          subst hs
          refine ⟨hdl, herr, ?_⟩
          simp only [InvAt] at hm ⊢
          exact ⟨hm.1, hm.2.1, hm.2.2, trivial⟩
      | _ => simp at hs
    | _ => simp at hs

theorem inv_run {d : Dialer} {network address : String} {ctx : Context} {now : Time}
    {acts : List Action} {s : State}
    (h : run d network address acts (init ctx now) = some s) :
    Inv d network address ctx false s :=
  run_induction (Inv d network address ctx false)
    (fun s a s' => inv_step d network address ctx false s a s')
    (inv_init d network address ctx now) h

/-- The first step of a call with a live context passes the fast-fail check. -/
theorem step_entry_live (d : Dialer) (network address : String) (ctx : Context) (now : Time)
    (hlive : ctx.Err = none) :
    step d network address (init ctx now) Action.caller
      = some { init ctx now with caller := CallerPc.checked } := by
  simp only [Context.Err] at hlive
  simp [step, DialContext, init, Context.Err, hlive]

theorem inv_run_passed {d : Dialer} {network address : String} {ctx : Context} {now : Time}
    {acts : List Action} {s : State} (hlive : ctx.Err = none)
    (h : run d network address (Action.caller :: acts) (init ctx now) = some s) :
    Inv d network address ctx true s := by
  rw [run_cons d network address _ _ _ _ (step_entry_live d network address ctx now hlive)] at h
  refine run_induction (Inv d network address ctx true)
    (fun s a s' => inv_step d network address ctx true s a s') ?_ h
  simp only [Context.Err] at hlive
  simp [Inv, InvAt, init, hlive]

/-- Once `DialContext` has returned, its result is settled. -/
theorem caller_returned_step {d : Dialer} {network address : String} {s s' : State}
    {a : Action} {r : conAir} {via : Resolution}
    (hs : step d network address s a = some s') (hc : s.caller = CallerPc.returned r via) :
    s'.caller = CallerPc.returned r via := by
  obtain ⟨clock, ctx, caller, bg, calls, closed⟩ := s
  dsimp only at hc
  subst hc
  cases a with
  | tick dt => simp only [step, Option.some.injEq] at hs; subst hs; rfl
  | cancel e =>
    simp only [step, Option.some.injEq] at hs
    subst hs
    cases hce : ctx.err <;> simp [cancel, hce]
  | caller => simp [step, DialContext] at hs
  | handoff => simp [step, handoff] at hs
  | bg =>
    simp only [step, dial] at hs
    cases bg with
    | spawned =>
      simp only at hs
      split at hs <;> (simp only [Option.some.injEq] at hs; subst hs; rfl)
    | dialing res => simp only [Option.some.injEq] at hs; subst hs; rfl
    | selecting res =>
      simp only at hs
      split at hs
      · simp only [Option.some.injEq] at hs; subst hs; rfl
      · cases hs
    | _ => simp at hs

theorem caller_returned_run {d : Dialer} {network address : String} {acts : List Action}
    {s s' : State} {r : conAir} {via : Resolution}
    (h : run d network address acts s = some s') (hc : s.caller = CallerPc.returned r via) :
    s'.caller = CallerPc.returned r via :=
  run_induction (fun t => t.caller = CallerPc.returned r via)
    (fun _ _ _ ht hs => caller_returned_step hs ht) hc h

/-- Once the background goroutine has invoked its dial, the outcome is settled. -/
theorem outcome_step {d : Dialer} {network address : String} {ctx0 : Context}
    {passed : Bool} {s s' : State} {a : Action} {res : conAir}
    (hinv : Inv d network address ctx0 passed s) (hs : step d network address s a = some s')
    (ho : s.bg.outcome = some res) : s'.bg.outcome = some res := by
  obtain ⟨clock, ctx, caller, bg, calls, closed⟩ := s
  obtain ⟨_, _, hm⟩ := hinv
  dsimp only at ho hm
  cases a with
  | tick dt => simp only [step, Option.some.injEq] at hs; subst hs; exact ho
  | cancel e =>
    simp only [step, Option.some.injEq] at hs
    subst hs
    cases hce : ctx.err <;> simpa [cancel, hce] using ho
  | caller =>
    simp only [step, DialContext] at hs
    cases caller with
    | entry =>
      simp only at hs
      split at hs <;> (simp only [Option.some.injEq] at hs; subst hs; exact ho)
    | checked =>
      simp only at hs
      split at hs
      · simp only [Option.some.injEq] at hs; subst hs; exact ho
      · cases bg <;> simp only [InvAt] at hm
        simp [BgPc.outcome] at ho
    | waiting =>
      simp only at hs
      split at hs
      · simp only [Option.some.injEq] at hs; subst hs; exact ho
      · cases hs
    | returned r via => simp at hs
  | handoff =>
    simp only [step, handoff] at hs
    cases caller with
    | waiting =>
      cases bg with
      | selecting res1 =>
        simp only at hs
        split at hs
        · cases hs
        · simp only [Option.some.injEq] at hs
          subst hs
          simpa [BgPc.outcome] using ho
      | _ => simp at hs
    | _ => simp at hs
  | bg =>
    simp only [step, dial] at hs
    cases bg with
    | spawned => simp [BgPc.outcome] at ho
    | dialing res1 =>
      simp only [Option.some.injEq] at hs
      subst hs
      simpa [BgPc.outcome] using ho
    | selecting res1 =>
      simp only at hs
      split at hs
      · simp only [Option.some.injEq] at hs
        subst hs
        simpa [BgPc.outcome] using ho
      · cases hs
    | _ => simp at hs

theorem outcome_run {d : Dialer} {network address : String} {ctx0 : Context}
    {passed : Bool} {acts : List Action} {s s' : State} {res : conAir}
    (hinv : Inv d network address ctx0 passed s) (h : run d network address acts s = some s')
    (ho : s.bg.outcome = some res) : s'.bg.outcome = some res := by
  have key := run_induction
    (fun t => Inv d network address ctx0 passed t ∧ t.bg.outcome = some res)
    (fun t a t' ht hs =>
      ⟨inv_step d network address ctx0 passed t a t' ht.1 hs, outcome_step ht.1 hs ht.2⟩)
    ⟨hinv, ho⟩ h
  exact key.2

/-- Once an operation of the base dialer has been invoked, none is invoked again:
in a state that satisfies the invariant a non-empty log never changes. -/
theorem calls_step {d : Dialer} {network address : String} {ctx0 : Context} {passed : Bool}
    {s s' : State} {a : Action} (hinv : Inv d network address ctx0 passed s)
    (hs : step d network address s a = some s') (hne : s.calls ≠ []) :
    s'.calls = s.calls := by
  obtain ⟨clock, ctx, caller, bg, calls, closed⟩ := s
  obtain ⟨_, _, hm⟩ := hinv
  dsimp only at hm hne ⊢
  cases a with
  | tick dt => simp only [step, Option.some.injEq] at hs; subst hs; rfl
  | cancel e =>
    simp only [step, Option.some.injEq] at hs
    subst hs
    cases hce : ctx.err <;> simp [cancel, hce]
  | caller =>
    simp only [step, DialContext] at hs
    cases caller with
    | entry =>
      simp only at hs
      split at hs <;> (simp only [Option.some.injEq] at hs; subst hs; rfl)
    | checked =>
      cases bg <;> simp only [InvAt] at hm
      exact absurd hm.2.1 hne
    | waiting =>
      simp only at hs
      split at hs
      · simp only [Option.some.injEq] at hs; subst hs; rfl
      · cases hs
    | returned r via => simp at hs
  | handoff =>
    simp only [step, handoff] at hs
    cases caller with
    | waiting =>
      cases bg with
      | selecting res1 =>
        simp only at hs
        split at hs
        · cases hs
        · simp only [Option.some.injEq] at hs; subst hs; rfl
      | _ => simp at hs
    | _ => simp at hs
  | bg =>
    simp only [step, dial] at hs
    cases bg with
    | spawned =>
      cases caller with
      | waiting => simp only [InvAt] at hm; exact absurd hm.2.1 hne
      | returned r via =>
        cases via <;> simp only [InvAt] at hm
        exact absurd hm.2.2.1 hne
      | _ => simp only [InvAt] at hm
    | dialing res1 => simp only [Option.some.injEq] at hs; subst hs; rfl
    | selecting res1 =>
      simp only at hs
      split at hs
      · simp only [Option.some.injEq] at hs; subst hs; rfl
      · cases hs
    | _ => simp at hs

theorem calls_run {d : Dialer} {network address : String} {ctx0 : Context} {passed : Bool}
    {acts : List Action} {s s' : State} (hinv : Inv d network address ctx0 passed s)
    (h : run d network address acts s = some s') (hne : s.calls ≠ []) :
    s'.calls = s.calls := by
  have key := run_induction
    (fun t => Inv d network address ctx0 passed t ∧ t.calls = s.calls)
    (fun t a t' ht hs =>
      ⟨inv_step d network address ctx0 passed t a t' ht.1 hs,
        (calls_step ht.1 hs (by rw [ht.2]; exact hne)).trans ht.2⟩)
    ⟨hinv, rfl⟩ h
  exact key.2

/-- The background goroutine, once started, can always invoke its dial; with a
`DialTimeout` method and a deadline it invokes `DialTimeout` with
`time.Until(deadline)` read off the clock at that moment. -/
theorem dial_spawned_timeout (d : Dialer) (network address : String) {s : State}
    {td : String → String → Duration → conAir} {dl : Time} (hbg : s.bg = BgPc.spawned)
    (htd : d.SimpleDialer.DialTimeout = some td) (hdl : s.ctx.Deadline = some dl) :
    step d network address s Action.bg
      = some { s with
          calls := s.calls ++ [Call.DialTimeout network address (timeUntil s.clock dl)]
          bg := BgPc.dialing (td network address (timeUntil s.clock dl)) } := by
  simp [step, dial, hbg, htd, hdl]

theorem dial_spawned_enabled (d : Dialer) (network address : String) (s : State)
    (hbg : s.bg = BgPc.spawned) :
    ∃ s' c, step d network address s Action.bg = some s' ∧ s'.calls = s.calls ++ [c] := by
  simp only [step, dial, hbg]
  split
  · exact ⟨_, _, rfl, rfl⟩
  · exact ⟨_, _, rfl, rfl⟩

/-- The background goroutine only moves forward, and a send on `c` uses up its
one `select`. -/
theorem phase_step {d : Dialer} {network address : String} {ctx0 : Context}
    {passed : Bool} {s s' : State} {a : Action}
    (hinv : Inv d network address ctx0 passed s) (hs : step d network address s a = some s') :
    s.bg.phase ≤ s'.bg.phase ∧ (a = Action.handoff → s.bg.phase = 3 ∧ s'.bg.phase = 4) := by
  obtain ⟨clock, ctx, caller, bg, calls, closed⟩ := s
  obtain ⟨_, _, hm⟩ := hinv
  dsimp only at hm ⊢
  cases a with
  | tick dt => simp only [step, Option.some.injEq] at hs; subst hs; simp
  | cancel e =>
    simp only [step, Option.some.injEq] at hs
    subst hs
    cases hce : ctx.err <;> simp [cancel, hce]
  | caller =>
    simp only [step, DialContext] at hs
    cases caller with
    | entry =>
      simp only at hs
      split at hs <;> (simp only [Option.some.injEq] at hs; subst hs; simp)
    | checked =>
      simp only at hs
      split at hs
      · simp only [Option.some.injEq] at hs; subst hs; simp
      · cases bg <;> simp only [InvAt] at hm
        simp only [Option.some.injEq] at hs
        subst hs
        simp [BgPc.phase]
    | waiting =>
      simp only at hs
      split at hs
      · simp only [Option.some.injEq] at hs; subst hs; simp
      · cases hs
    | returned r via => simp at hs
  | handoff =>
    simp only [step, handoff] at hs
    cases caller with
    | waiting =>
      cases bg with
      | selecting res1 =>
        simp only at hs
        split at hs
        · cases hs
        · simp only [Option.some.injEq] at hs
          subst hs
          simp [BgPc.phase]
      | _ => simp at hs
    | _ => simp at hs
  | bg =>
    simp only [step, dial] at hs
    cases bg with
    | spawned =>
      simp only at hs
      split at hs <;> (simp only [Option.some.injEq] at hs; subst hs; simp [BgPc.phase])
    | dialing res1 =>
      simp only [Option.some.injEq] at hs
      subst hs
      simp [BgPc.phase]
    | selecting res1 =>
      simp only at hs
      split at hs
      · simp only [Option.some.injEq] at hs
        subst hs
        simp [BgPc.phase]
      · cases hs
    | _ => simp at hs

theorem phase_run {d : Dialer} {network address : String} {ctx0 : Context}
    {passed : Bool} {acts : List Action} {s s' : State}
    (hinv : Inv d network address ctx0 passed s) (h : run d network address acts s = some s') :
    s.bg.phase ≤ s'.bg.phase := by
  have key := run_induction
    (fun t => Inv d network address ctx0 passed t ∧ s.bg.phase ≤ t.bg.phase)
    (fun t a t' ht hs =>
      ⟨inv_step d network address ctx0 passed t a t' ht.1 hs,
        le_trans ht.2 (phase_step ht.1 hs).1⟩)
    ⟨hinv, le_refl _⟩ h
  exact key.2

/-- The sends on `c` in a run, plus those still possible at its end, are at most
those possible at its start. -/
theorem handoffs_run {d : Dialer} {network address : String} {ctx0 : Context}
    {passed : Bool} {acts : List Action} {s s' : State}
    (hinv : Inv d network address ctx0 passed s) (h : run d network address acts s = some s') :
    acts.count Action.handoff + s'.bg.handoffsLeft ≤ s.bg.handoffsLeft := by
  induction acts generalizing s with
  | nil => simp [run] at h; subst h; simp
  | cons a rest ih =>
    obtain ⟨t, hs, hr⟩ := run_cons_some h
    have hinv' := inv_step d network address ctx0 passed s a t hinv hs
    have ih' := ih hinv' hr
    obtain ⟨hmono, hh⟩ := phase_step hinv hs
    by_cases ha : a = Action.handoff
    · obtain ⟨h3, h4⟩ := hh ha
      subst ha
      have h1 : s.bg.handoffsLeft = 1 := by simp [BgPc.handoffsLeft, h3]
      have h0 : t.bg.handoffsLeft = 0 := by simp [BgPc.handoffsLeft, h4]
      rw [List.count_cons_self, h1]
      rw [h0] at ih'
      omega
    · rw [List.count_cons_of_ne (fun h => ha h.symm)]
      have : t.bg.handoffsLeft ≤ s.bg.handoffsLeft := by
        unfold BgPc.handoffsLeft
        split <;> split <;> omega
      omega

theorem closeLate_nil (res : conAir) :
    closeLate res [] = if res.err = none then res.conn.toList else [] := by
  obtain ⟨conn, err⟩ := res
  cases err <;> cases conn <;> simp [closeLate]

/-- With `ctx.Done()` closed, the background goroutine at its `select` can take
that case; it then runs the late close and terminates. -/
theorem dial_select_done (d : Dialer) (network address : String) {s : State} {res : conAir}
    (hbg : s.bg = BgPc.selecting res) (hdone : s.ctx.Done = true) :
    step d network address s Action.bg
      = some { s with bg := BgPc.finished res, closed := closeLate res s.closed } := by
  simp [step, dial, hbg, hdone]

/-- A caller that returned by cancellation saw `ctx.Done()` closed, and it stays
closed. -/
theorem done_of_cancelled {d : Dialer} {network address : String} {ctx0 : Context}
    {passed : Bool} {s : State} {r : conAir} (hinv : Inv d network address ctx0 passed s)
    (hret : s.caller = CallerPc.returned r Resolution.cancelled) : s.ctx.Done = true := by
  obtain ⟨_, _, hm⟩ := hinv
  rw [hret] at hm
  have hne : s.ctx.err ≠ none := by
    cases hb : s.bg <;> rw [hb] at hm <;> simp only [InvAt] at hm <;> exact hm.2.1.2
  cases h : s.ctx.err with
  | none => exact absurd h hne
  | some e => simp [Context.Done, h]

/-- After the fast-fail check and without `DialContext`, a caller that has
returned either received the outcome over the channel, the background goroutine
having returned after the send, or returned `(nil, ctx.Err())` of a terminated
context after starting the background goroutine. -/
theorem returned_shape {d : Dialer} {network address : String} {ctx : Context} {s : State}
    {r : conAir} {via : Resolution} (hinv : Inv d network address ctx true s)
    (hcd : d.SimpleDialer.DialContext = none) (hret : s.caller = CallerPc.returned r via) :
    (via = Resolution.handoff ∧ s.bg = BgPc.sent r) ∨
      (via = Resolution.cancelled ∧ r = ⟨none, s.ctx.Err⟩ ∧ s.ctx.Err ≠ none ∧
        s.bg.phase ≠ 0) := by
  obtain ⟨_, _, hm⟩ := hinv
  obtain ⟨clock, cx, caller, bg, calls, closed⟩ := s
  dsimp only at hm hret ⊢
  subst hret
  cases via with
  | fastFail => cases bg <;> simp [InvAt] at hm
  | delegated =>
    cases bg <;> simp only [InvAt] at hm
    obtain ⟨_, _, cd1, _, h3, _⟩ := hm
    rw [hcd] at h3
    cases h3
  | handoff =>
    cases bg <;> simp only [InvAt] at hm
    obtain ⟨_, _, _, rfl⟩ := hm
    exact Or.inl ⟨rfl, rfl⟩
  | cancelled =>
    cases bg <;> simp only [InvAt] at hm <;>
      exact Or.inr ⟨rfl, hm.2.1.1, hm.2.1.2, by simp [BgPc.phase]⟩

/-! ## The claims -/

/-- C1: when `ctx.Err()` is already non-nil as `DialContext` is called, the call
returns `(nil, ctx.Err())`: its first step is enabled and returns exactly that
pair, no other result is ever returned, and in no state of any run has an
operation of the base dialer been invoked or the background goroutine been
started, whatever methods the base dialer has. -/
theorem C1_terminated_context_fast_fail (d : Dialer) (network address : String)
    (deadline : Option Time) (e : GoError) (now : Time) :
    (∃ s, run d network address [Action.caller] (init ⟨deadline, some e⟩ now) = some s ∧
        s.caller = CallerPc.returned ⟨none, some e⟩ Resolution.fastFail) ∧
    ∀ acts s, run d network address acts (init ⟨deadline, some e⟩ now) = some s →
      s.calls = [] ∧ s.bg = BgPc.notStarted ∧ s.closed = [] ∧ s.ctx.Err = some e ∧
      (s.caller = CallerPc.returned ⟨none, some e⟩ Resolution.fastFail ∨
        (s.caller = CallerPc.entry ∧
          ∃ s', step d network address s Action.caller = some s' ∧
            s'.caller = CallerPc.returned ⟨none, some e⟩ Resolution.fastFail)) := by
  refine ⟨⟨_, rfl, rfl⟩, ?_⟩
  intro acts s h
  obtain ⟨_, herr, hm⟩ := inv_run h
  have he : s.ctx.err = some e := herr e rfl
  obtain ⟨clock, ctx, caller, bg, calls, closed⟩ := s
  dsimp only at he hm ⊢
  cases caller with
  | entry =>
    cases bg <;> simp only [InvAt] at hm
    refine ⟨hm.2.1, rfl, hm.2.2, he, Or.inr ⟨rfl, ?_⟩⟩
    simp [step, DialContext, Context.Err, he]
  | returned r via =>
    cases via <;> cases bg <;> simp only [InvAt, Fallback] at hm <;>
      first
      | (obtain ⟨_, h1, h2, h3, _⟩ := hm
         refine ⟨h1, rfl, h2, he, Or.inl ?_⟩
         rw [h3, he])
      | exact absurd hm.1 (by simp)
  | _ => cases bg <;> simp [InvAt, Fallback] at hm

/-- Witness of C1 on the test `TestCancelledContext`: the context is cancelled
before the call, time passes, the call returns `context.Canceled`. -/
theorem C1_terminated_context_fast_fail_witness :
    run testNeverDial "tcp" "127.0.0.1:12345" [Action.tick 5, Action.caller]
        (init ⟨none, some Canceled⟩ 0)
      = some ⟨5, ⟨none, some Canceled⟩,
          CallerPc.returned ⟨none, some Canceled⟩ Resolution.fastFail, BgPc.notStarted, [], []⟩ ∧
    (([] : List Call) = [] ∧ BgPc.notStarted = BgPc.notStarted) :=
  ⟨rfl,
    let h := (C1_terminated_context_fast_fail testNeverDial "tcp" "127.0.0.1:12345" none
      Canceled 0).2 [Action.tick 5, Action.caller]
      ⟨5, ⟨none, some Canceled⟩,
        CallerPc.returned ⟨none, some Canceled⟩ Resolution.fastFail, BgPc.notStarted, [], []⟩ rfl
    ⟨h.1, h.2.1⟩⟩

/-- C2: when the context is live as `DialContext` is called and the base dialer
has a `DialContext` method `cd`, no background goroutine is started and nothing
is closed; until the delegated call is made nothing has been invoked and the
caller's next step invokes `cd` with the context, network and address of the
call and returns its pair; afterwards the log of invoked operations is exactly
that one call (so neither `Dial` nor `DialTimeout` was invoked) and the
returned pair is exactly what `cd` returned for those arguments. -/
theorem C2_delegates_to_DialContext (d : Dialer) (network address : String) (ctx : Context)
    (now : Time) (cd : Context → String → String → conAir) (acts : List Action) (s : State)
    (hlive : ctx.Err = none) (hcd : d.SimpleDialer.DialContext = some cd)
    (hrun : run d network address (Action.caller :: acts) (init ctx now) = some s) :
    s.bg = BgPc.notStarted ∧ s.closed = [] ∧
    ((s.caller = CallerPc.checked ∧ s.calls = [] ∧
        ∃ s', step d network address s Action.caller = some s' ∧
          s'.calls = [Call.DialContext s.ctx network address] ∧
          s'.caller = CallerPc.returned (cd s.ctx network address) Resolution.delegated ∧
          s'.bg = BgPc.notStarted) ∨
      (∃ cx, cx.deadline = ctx.deadline ∧ (∀ e, cx.err = some e → s.ctx.err = some e) ∧
        s.calls = [Call.DialContext cx network address] ∧
        s.caller = CallerPc.returned (cd cx network address) Resolution.delegated)) := by
  obtain ⟨_, _, hm⟩ := inv_run_passed hlive hrun
  obtain ⟨clock, cx, caller, bg, calls, closed⟩ := s
  dsimp only at hm ⊢
  cases caller with
  | entry => cases bg <;> simp [InvAt] at hm
  | checked =>
    cases bg <;> simp only [InvAt] at hm
    refine ⟨rfl, hm.2.2, Or.inl ⟨rfl, hm.2.1, ?_⟩⟩
    simp [step, DialContext, hcd, hm.2.1]
  | waiting => cases bg <;> simp [InvAt, Fallback, hcd] at hm
  | returned r via =>
    cases via <;> cases bg <;> simp only [InvAt, Fallback, hcd] at hm <;>
      first
      | (obtain ⟨_, h2, cd1, cx1, h3, h4, h5, h6, h7⟩ := hm
         cases h3
         exact ⟨rfl, h2, Or.inr ⟨cx1, h4, h5, h6, by rw [h7]⟩⟩)
      | simp at hm

/-- Witness of C2 on the test `TestDialContext`, with the context cancelled
between the check and the delegated call. -/
theorem C2_delegates_to_DialContext_witness :
    run testDialContext "tcp" "127.0.0.1:12345"
        [Action.caller, Action.cancel Canceled, Action.caller] (init ⟨none, none⟩ 0)
      = some ⟨0, ⟨none, some Canceled⟩,
          CallerPc.returned ⟨none, some errPass⟩ Resolution.delegated, BgPc.notStarted,
          [Call.DialContext ⟨none, some Canceled⟩ "tcp" "127.0.0.1:12345"], []⟩ ∧
    BgPc.notStarted = BgPc.notStarted ∧ ([] : List Conn) = [] :=
  ⟨rfl,
    let h := C2_delegates_to_DialContext testDialContext "tcp" "127.0.0.1:12345" ⟨none, none⟩ 0
      (fun _ _ _ => ⟨none, some errPass⟩) [Action.cancel Canceled, Action.caller]
      ⟨0, ⟨none, some Canceled⟩, CallerPc.returned ⟨none, some errPass⟩ Resolution.delegated,
        BgPc.notStarted, [Call.DialContext ⟨none, some Canceled⟩ "tcp" "127.0.0.1:12345"], []⟩
      rfl rfl rfl
    ⟨h.1, h.2.1⟩⟩

/-- C4: for a base dialer without `DialContext` and a context live as the call
is made, a returned pair is either exactly the pair the one invoked base
operation returned (`DialTimeout` with the logged timeout, or `Dial`), received
over the channel, or `(nil, ctx.Err())` with `ctx.Err()` non-nil; nothing else
is returned. -/
theorem C4_result_is_dial_outcome_or_ctx_error (d : Dialer) (network address : String)
    (ctx : Context) (now : Time) (acts : List Action) (s : State) (r : conAir)
    (via : Resolution) (hlive : ctx.Err = none) (hcd : d.SimpleDialer.DialContext = none)
    (hrun : run d network address (Action.caller :: acts) (init ctx now) = some s)
    (hret : s.caller = CallerPc.returned r via) :
    (via = Resolution.handoff ∧
      ((∃ td dl t, d.SimpleDialer.DialTimeout = some td ∧ ctx.Deadline = some dl ∧
          s.calls = [Call.DialTimeout network address t] ∧ r = td network address t) ∨
        ((d.SimpleDialer.DialTimeout = none ∨ ctx.Deadline = none) ∧
          s.calls = [Call.Dial network address] ∧ r = d.SimpleDialer.Dial network address))) ∨
    (via = Resolution.cancelled ∧ r = ⟨none, s.ctx.Err⟩ ∧ s.ctx.Err ≠ none) := by
  obtain ⟨_, _, hm⟩ := inv_run_passed hlive hrun
  obtain ⟨clock, cx, caller, bg, calls, closed⟩ := s
  dsimp only at hm hret ⊢
  subst hret
  cases via with
  | fastFail => cases bg <;> simp [InvAt] at hm
  | delegated =>
    cases bg <;> simp only [InvAt] at hm
    obtain ⟨_, _, cd1, _, h3, _⟩ := hm
    rw [hcd] at h3
    cases h3
  | handoff =>
    cases bg <;> simp only [InvAt] at hm
    obtain ⟨_, hD, _, rfl⟩ := hm
    exact Or.inl ⟨rfl, hD⟩
  | cancelled =>
    cases bg <;> simp only [InvAt] at hm <;>
      exact Or.inr ⟨rfl, hm.2.1.1, hm.2.1.2⟩

/-- Witness of C4 on the test `TestDialSucceed`. -/
theorem C4_result_is_dial_outcome_or_ctx_error_witness :
    run testDialSucceed "tcp" "127.0.0.1:12345"
        [Action.caller, Action.caller, Action.bg, Action.bg, Action.handoff]
        (init ⟨none, none⟩ 0)
      = some ⟨0, ⟨none, none⟩, CallerPc.returned ⟨some connPass, none⟩ Resolution.handoff,
          BgPc.sent ⟨some connPass, none⟩, [Call.Dial "tcp" "127.0.0.1:12345"], []⟩ ∧
    ((Resolution.handoff = Resolution.handoff ∧
      ((∃ td dl t, testDialSucceed.SimpleDialer.DialTimeout = some td ∧
          Context.Deadline ⟨none, none⟩ = some dl ∧
          [Call.Dial "tcp" "127.0.0.1:12345"] = [Call.DialTimeout "tcp" "127.0.0.1:12345" t] ∧
          (⟨some connPass, none⟩ : conAir) = td "tcp" "127.0.0.1:12345" t) ∨
        ((testDialSucceed.SimpleDialer.DialTimeout = none ∨
            Context.Deadline ⟨none, none⟩ = none) ∧
          [Call.Dial "tcp" "127.0.0.1:12345"] = [Call.Dial "tcp" "127.0.0.1:12345"] ∧
          (⟨some connPass, none⟩ : conAir)
            = testDialSucceed.SimpleDialer.Dial "tcp" "127.0.0.1:12345"))) ∨
    (Resolution.handoff = Resolution.cancelled ∧
      (⟨some connPass, none⟩ : conAir) = ⟨none, Context.Err ⟨none, none⟩⟩ ∧
      Context.Err ⟨none, none⟩ ≠ none)) :=
  ⟨rfl,
    C4_result_is_dial_outcome_or_ctx_error testDialSucceed "tcp" "127.0.0.1:12345" ⟨none, none⟩ 0
      [Action.caller, Action.bg, Action.bg, Action.handoff]
      ⟨0, ⟨none, none⟩, CallerPc.returned ⟨some connPass, none⟩ Resolution.handoff,
        BgPc.sent ⟨some connPass, none⟩, [Call.Dial "tcp" "127.0.0.1:12345"], []⟩
      ⟨some connPass, none⟩ Resolution.handoff rfl rfl rfl rfl⟩

/-- C5, as stated, fails: the pair is passed through from the base dialer as it
is.  A base dialer whose `Dial` returns `(nil, nil)` makes `DialContext` return
`(nil, nil)`, and one whose `DialContext` returns a connection together with an
error makes it return both. -/
theorem C5_counterexample :
    (run dialNothing "tcp" "127.0.0.1:12345"
        [Action.caller, Action.caller, Action.bg, Action.bg, Action.handoff]
        (init ⟨none, none⟩ 0)).map (fun s => s.caller)
      = some (CallerPc.returned ⟨none, none⟩ Resolution.handoff) ∧
    ¬ exactlyOne ⟨none, none⟩ ∧
    (run dialBoth "tcp" "127.0.0.1:12345" [Action.caller, Action.caller]
        (init ⟨none, none⟩ 0)).map (fun s => s.caller)
      = some (CallerPc.returned ⟨some connPass, some errFail⟩ Resolution.delegated) ∧
    ¬ exactlyOne ⟨some connPass, some errFail⟩ := by
  refine ⟨rfl, ?_, rfl, ?_⟩ <;> simp [exactlyOne]

/-- C5, amended: if every operation of the base dialer returns a pair with
exactly one non-nil component, then so does `DialContext`, for every context,
network and address and on every run. -/
theorem C5_exactly_one_of_conn_and_err (d : Dialer) (network address : String)
    (ctx : Context) (now : Time) (acts : List Action) (s : State) (r : conAir)
    (via : Resolution) (hbase : WellBehaved d)
    (hrun : run d network address acts (init ctx now) = some s)
    (hret : s.caller = CallerPc.returned r via) : exactlyOne r := by
  obtain ⟨_, _, hm⟩ := inv_run hrun
  obtain ⟨clock, cx, caller, bg, calls, closed⟩ := s
  dsimp only at hm hret
  subst hret
  obtain ⟨hDial, hDC, hDT⟩ := hbase
  have hCancel : ∀ {r : conAir}, Cancelled r cx → exactlyOne r := by
    intro r h
    obtain ⟨rfl, hne⟩ := h
    exact Or.inr ⟨rfl, hne⟩
  have hDialed : ∀ {res : conAir}, Dialed d network address ctx calls res → exactlyOne res := by
    intro res h
    rcases h with ⟨td, _, t, htd, _, _, rfl⟩ | ⟨_, _, rfl⟩
    · exact hDT td htd _ _ _
    · exact hDial _ _
  cases via with
  | fastFail =>
    cases bg <;> simp only [InvAt] at hm
    exact hCancel hm.2.2.2
  | delegated =>
    cases bg <;> simp only [InvAt] at hm
    obtain ⟨_, _, cd1, cx1, h3, _, _, _, rfl⟩ := hm
    exact hDC cd1 h3 _ _ _
  | handoff =>
    cases bg <;> simp only [InvAt] at hm
    obtain ⟨_, hD, _, rfl⟩ := hm
    exact hDialed hD
  | cancelled =>
    cases bg <;> simp only [InvAt] at hm <;> exact hCancel hm.2.1

theorem wellBehaved_testDialSucceed : WellBehaved testDialSucceed := by
  refine ⟨fun _ _ => Or.inl ⟨by simp [testDialSucceed], rfl⟩, ?_, ?_⟩ <;>
    intro f hf <;> simp [testDialSucceed] at hf

/-- Witness of C5 (amended) on the test `TestDialSucceed`. -/
theorem C5_exactly_one_of_conn_and_err_witness :
    WellBehaved testDialSucceed ∧
    run testDialSucceed "tcp" "127.0.0.1:12345"
        [Action.caller, Action.caller, Action.bg, Action.bg, Action.handoff]
        (init ⟨none, none⟩ 0)
      = some ⟨0, ⟨none, none⟩, CallerPc.returned ⟨some connPass, none⟩ Resolution.handoff,
          BgPc.sent ⟨some connPass, none⟩, [Call.Dial "tcp" "127.0.0.1:12345"], []⟩ ∧
    exactlyOne ⟨some connPass, none⟩ :=
  ⟨wellBehaved_testDialSucceed, rfl,
    C5_exactly_one_of_conn_and_err testDialSucceed "tcp" "127.0.0.1:12345" ⟨none, none⟩ 0
      [Action.caller, Action.caller, Action.bg, Action.bg, Action.handoff]
      ⟨0, ⟨none, none⟩, CallerPc.returned ⟨some connPass, none⟩ Resolution.handoff,
        BgPc.sent ⟨some connPass, none⟩, [Call.Dial "tcp" "127.0.0.1:12345"], []⟩
      ⟨some connPass, none⟩ Resolution.handoff wellBehaved_testDialSucceed rfl rfl⟩

/-- The operation logged by the background dial is the one the priority rule
selects, with the network and address of the call. -/
theorem dialed_chosen {d : Dialer} {network address : String} {ctx : Context}
    {calls : List Call} {res : conAir} (hcd : d.SimpleDialer.DialContext = none)
    (hD : Dialed d network address ctx calls res) :
    calls.length = 1 ∧
      ∀ c ∈ calls, c.op = specChosenOp d ctx ∧ c.network = network ∧ c.address = address := by
  rcases hD with ⟨td, dl, t, htd, hdl, rfl, _⟩ | ⟨hno, rfl, _⟩
  · refine ⟨rfl, fun c hc => ?_⟩
    simp only [List.mem_singleton] at hc
    subst hc
    simp [specChosenOp, hcd, htd, Context.Deadline, hdl, Call.op, Call.network, Call.address]
  · refine ⟨rfl, fun c hc => ?_⟩
    simp only [List.mem_singleton] at hc
    subst hc
    rcases hno with h | h <;>
      simp [specChosenOp, hcd, h, Context.Deadline, Call.op, Call.network, Call.address]

theorem dialed_ne_nil {d : Dialer} {network address : String} {ctx : Context}
    {calls : List Call} {res : conAir} (hD : Dialed d network address ctx calls res) :
    calls ≠ [] := by
  rcases hD with ⟨_, _, _, _, _, rfl, _⟩ | ⟨_, rfl, _⟩ <;> simp

/-- After the fast-fail check, as long as no operation of the base dialer has
been invoked, either the caller is about to dispatch or the background goroutine
is about to dial. -/
theorem pending_cases {d : Dialer} {network address : String} {ctx : Context} {s : State}
    (hinv : Inv d network address ctx true s) (hnil : s.calls = []) :
    s.caller = CallerPc.checked ∨ s.bg = BgPc.spawned := by
  obtain ⟨_, _, hm⟩ := hinv
  obtain ⟨clock, cx, caller, bg, calls, closed⟩ := s
  dsimp only at hm hnil ⊢
  subst hnil
  cases caller with
  | entry => cases bg <;> simp [InvAt] at hm
  | checked => exact Or.inl rfl
  | waiting =>
    cases bg <;> simp only [InvAt] at hm
    · exact Or.inr rfl
    · exact absurd rfl (dialed_ne_nil hm.2.1)
    · exact absurd rfl (dialed_ne_nil hm.2.1)
    · exact absurd rfl (dialed_ne_nil hm.2.2.1)
  | returned r via =>
    cases via with
    | fastFail => cases bg <;> simp [InvAt] at hm
    | delegated =>
      cases bg <;> simp only [InvAt] at hm
      obtain ⟨_, _, _, _, _, _, _, h, _⟩ := hm
      cases h
    | handoff =>
      cases bg <;> simp only [InvAt] at hm
      exact absurd rfl (dialed_ne_nil hm.2.1)
    | cancelled =>
      cases bg <;> simp only [InvAt] at hm
      · exact Or.inr rfl
      · exact absurd rfl (dialed_ne_nil hm.2.2.1)
      · exact absurd rfl (dialed_ne_nil hm.2.2.1)
      · exact absurd rfl (dialed_ne_nil hm.2.2.1)

/-- C6: in a call whose context is live as it is made, at most one operation of
the base dialer has been invoked in any state, it is the one the priority rule
selects (`DialContext`, else `DialTimeout` when the context has a deadline, else
`Dial`) and it got the network and address of the call; in particular without
`DialContext` and without a deadline the only call is the plain `Dial`.  The
operation does get invoked: from every state at most two further steps invoke
it, and once it is invoked the log never changes again. -/
theorem C6_one_operation_by_priority (d : Dialer) (network address : String) (ctx : Context)
    (now : Time) (acts : List Action) (s : State) (hlive : ctx.Err = none)
    (hrun : run d network address (Action.caller :: acts) (init ctx now) = some s) :
    s.calls.length ≤ 1 ∧
    (∀ c ∈ s.calls, c.op = specChosenOp d ctx ∧ c.network = network ∧ c.address = address) ∧
    (d.SimpleDialer.DialContext = none → ctx.Deadline = none →
      ∀ c ∈ s.calls, c = Call.Dial network address) ∧
    (∃ more s', more.length ≤ 2 ∧ run d network address more s = some s' ∧
      s'.calls.length = 1) ∧
    (∀ more s', run d network address more s = some s' → s.calls ≠ [] →
      s'.calls = s.calls) := by
  have hinv := inv_run_passed hlive hrun
  have hsafe : ∀ t : State, Inv d network address ctx true t →
      t.calls.length ≤ 1 ∧
      (∀ c ∈ t.calls, c.op = specChosenOp d ctx ∧ c.network = network ∧
        c.address = address) := by
    intro t ht
    obtain ⟨_, _, hm⟩ := ht
    obtain ⟨clock, cx, caller, bg, calls, closed⟩ := t
    dsimp only at hm ⊢
    have hD : ∀ {res : conAir}, Fallback d ctx → Dialed d network address ctx calls res →
        calls.length ≤ 1 ∧ (∀ c ∈ calls, c.op = specChosenOp d ctx ∧ c.network = network ∧
          c.address = address) := fun hF h => ⟨le_of_eq (dialed_chosen hF.2 h).1,
            (dialed_chosen hF.2 h).2⟩
    have hE : calls = [] → calls.length ≤ 1 ∧ (∀ c ∈ calls, c.op = specChosenOp d ctx ∧
        c.network = network ∧ c.address = address) := by
      intro h
      subst h
      simp
    cases caller with
    | entry => cases bg <;> simp [InvAt] at hm
    | checked => cases bg <;> simp only [InvAt] at hm; exact hE hm.2.1
    | waiting =>
      cases bg <;> simp only [InvAt] at hm
      · exact hE hm.2.1
      · exact hD hm.1 hm.2.1
      · exact hD hm.1 hm.2.1
      · exact hD hm.1 hm.2.2.1
    | returned r via =>
      cases via with
      | fastFail => cases bg <;> simp [InvAt] at hm
      | delegated =>
        cases bg <;> simp only [InvAt] at hm
        obtain ⟨_, _, cd1, cx1, h3, _, _, rfl, _⟩ := hm
        refine ⟨le_refl _, fun c hc => ?_⟩
        simp only [List.mem_singleton] at hc
        subst hc
        simp [specChosenOp, h3, Call.op, Call.network, Call.address]
      | handoff =>
        cases bg <;> simp only [InvAt] at hm
        exact hD hm.1 hm.2.1
      | cancelled =>
        cases bg <;> simp only [InvAt] at hm
        · exact hE hm.2.2.1
        · exact hD hm.1 hm.2.2.1
        · exact hD hm.1 hm.2.2.1
        · exact hD hm.1 hm.2.2.1
  refine ⟨(hsafe s hinv).1, (hsafe s hinv).2, ?_, ?_, fun more s' h hne => calls_run hinv h hne⟩
  · intro hcd hnd c hc
    obtain ⟨hop, hn, ha⟩ := (hsafe s hinv).2 c hc
    simp only [Context.Deadline] at hnd
    cases c <;>
      simp_all [specChosenOp, Context.Deadline, Call.op, Call.network, Call.address]
  · by_cases hne : s.calls = []
    · have hprog : ∃ more s', more.length ≤ 2 ∧ run d network address more s = some s' ∧
          s'.calls ≠ [] := by
        rcases pending_cases hinv hne with hcl | hc
        · cases hcd : d.SimpleDialer.DialContext with
          | some cd =>
            refine ⟨[Action.caller], { s with
              calls := s.calls ++ [Call.DialContext s.ctx network address]
              caller := CallerPc.returned (cd s.ctx network address) Resolution.delegated },
              by simp, ?_, by simp⟩
            simp only [run, step, DialContext, hcl, hcd]
          | none =>
            have h1 : step d network address s Action.caller
                = some { s with bg := BgPc.spawned, caller := CallerPc.waiting } := by
              simp only [step, DialContext, hcl, hcd]
            obtain ⟨s', c, hs, hcalls⟩ := dial_spawned_enabled d network address
              { s with bg := BgPc.spawned, caller := CallerPc.waiting } rfl
            exact ⟨[Action.caller, Action.bg], s', by simp, by simp [run, h1, hs],
              by simp [hcalls]⟩
        · obtain ⟨s', c, hs, hcalls⟩ := dial_spawned_enabled d network address s hc
          exact ⟨[Action.bg], s', by simp, by simp [run, hs], by simp [hcalls]⟩
      obtain ⟨more, s', hlen, hr, hne'⟩ := hprog
      have hinv' : Inv d network address ctx true s' :=
        run_induction (Inv d network address ctx true)
          (fun s a s' => inv_step d network address ctx true s a s') hinv hr
      refine ⟨more, s', hlen, hr, ?_⟩
      have := (hsafe s' hinv').1
      cases hl : s'.calls with
      | nil => exact absurd hl hne'
      | cons c rest =>
        rw [hl] at this
        cases rest with
        | nil => rfl
        | cons c2 rest2 => simp at this
    · refine ⟨[], s, by simp, rfl, ?_⟩
      have := (hsafe s hinv).1
      cases hl : s.calls with
      | nil => exact absurd hl hne
      | cons c rest =>
        rw [hl] at this
        cases rest with
        | nil => rfl
        | cons c2 rest2 => simp at this

/-- Witness of C6 on the test `TestDialTimeoutNoDeadline`: the base dialer has
`DialTimeout`, the context has no deadline, and the one call is the plain
`Dial`. -/
theorem C6_one_operation_by_priority_witness :
    run testDialTimeoutNoDeadline "tcp" "127.0.0.1:12345"
        [Action.caller, Action.caller, Action.bg, Action.bg, Action.handoff]
        (init ⟨none, none⟩ 0)
      = some ⟨0, ⟨none, none⟩, CallerPc.returned ⟨none, some errPass⟩ Resolution.handoff,
          BgPc.sent ⟨none, some errPass⟩, [Call.Dial "tcp" "127.0.0.1:12345"], []⟩ ∧
    specChosenOp testDialTimeoutNoDeadline ⟨none, none⟩ = Op.Dial ∧
    ∀ c ∈ [Call.Dial "tcp" "127.0.0.1:12345"],
      c.op = specChosenOp testDialTimeoutNoDeadline ⟨none, none⟩ ∧
        c.network = "tcp" ∧ c.address = "127.0.0.1:12345" :=
  ⟨rfl, rfl,
    (C6_one_operation_by_priority testDialTimeoutNoDeadline "tcp" "127.0.0.1:12345"
      ⟨none, none⟩ 0 [Action.caller, Action.bg, Action.bg, Action.handoff]
      ⟨0, ⟨none, none⟩, CallerPc.returned ⟨none, some errPass⟩ Resolution.handoff,
        BgPc.sent ⟨none, some errPass⟩, [Call.Dial "tcp" "127.0.0.1:12345"], []⟩
      rfl rfl).2.1⟩

theorem timeUntil_in_range (now t : Time) (hlo : minDuration ≤ t - now)
    (hhi : t - now ≤ maxDuration) : timeUntil now t = t - now := by
  unfold timeUntil timeSub
  rw [if_neg (not_lt.mpr hhi), if_neg (not_lt.mpr hlo)]

/-- The value of `time.Until(t)` is the difference `t - now` clamped to the range
of `time.Duration`. -/
theorem timeUntil_saturates (now t : Time) :
    timeUntil now t = max minDuration (min maxDuration (t - now)) := by
  have h : minDuration ≤ maxDuration := by decide
  unfold timeUntil timeSub
  split_ifs with h1 h2
  · rw [min_eq_left (le_of_lt h1), max_eq_right h]
  · rw [min_eq_right (not_lt.mp h1), max_eq_left (le_of_lt h2)]
  · rw [min_eq_right (not_lt.mp h1), max_eq_right (not_lt.mp h2)]

/-- C7, as stated, fails: the duration passed is `time.Until(deadline)`, which is
not always the difference `deadline - now`.  With the clock at 0 and a deadline
12622780800000000000 ns ahead (400 years), `testDialTimeout` is invoked with the
largest `time.Duration`, 9223372036854775807 ns. -/
theorem C7_counterexample :
    run testDialTimeout "tcp" "127.0.0.1:12345" [Action.caller, Action.caller, Action.bg]
        (init ⟨some 12622780800000000000, none⟩ 0)
      = some ⟨0, ⟨some 12622780800000000000, none⟩, CallerPc.waiting,
          BgPc.dialing ⟨none, some errPass⟩,
          [Call.DialTimeout "tcp" "127.0.0.1:12345" 9223372036854775807], []⟩ ∧
    (9223372036854775807 : Duration) ≠ 12622780800000000000 - 0 :=
  ⟨rfl, by decide⟩

/-- C7, amended: with `DialTimeout` but no `DialContext`, a deadline `dl` and a
context live as the call is made, the background goroutine, at whatever state
`s₁` of whatever run it gets to dial, invokes `DialTimeout` with the network and
address of the call and the duration `time.Until(dl)` taken from the clock of
`s₁`, the moment of the invocation: the difference `dl - now` clamped to the
range of `time.Duration`, hence `dl - now` itself whenever that is a
`time.Duration`.  From then on the log is that one call, the outcome of the
background dial is what `DialTimeout` returned, and the caller never returns a
modified pair: what it returns is that pair, received over the channel, or else
`(nil, ctx.Err())` of the terminated context; a caller that is still waiting
while `ctx.Done()` is open can receive the pair. -/
theorem C7_timeout_is_time_until_deadline (d : Dialer) (network address : String)
    (ctx : Context) (dl : Time) (now : Time) (td : String → String → Duration → conAir)
    (acts : List Action) (s₁ : State) (hlive : ctx.Err = none)
    (hdl : ctx.Deadline = some dl) (hcd : d.SimpleDialer.DialContext = none)
    (htd : d.SimpleDialer.DialTimeout = some td)
    (hrun : run d network address (Action.caller :: acts) (init ctx now) = some s₁)
    (hbg : s₁.bg = BgPc.spawned) :
    ∃ s₂, step d network address s₁ Action.bg = some s₂ ∧
      s₂.calls = [Call.DialTimeout network address (timeUntil s₁.clock dl)] ∧
      s₂.bg = BgPc.dialing (td network address (timeUntil s₁.clock dl)) ∧
      timeUntil s₁.clock dl = max minDuration (min maxDuration (dl - s₁.clock)) ∧
      (minDuration ≤ dl - s₁.clock → dl - s₁.clock ≤ maxDuration →
        timeUntil s₁.clock dl = dl - s₁.clock) ∧
      (∀ more s₃, run d network address more s₂ = some s₃ →
        s₃.calls = [Call.DialTimeout network address (timeUntil s₁.clock dl)] ∧
        s₃.bg.outcome = some (td network address (timeUntil s₁.clock dl)) ∧
        ∀ r via, s₃.caller = CallerPc.returned r via →
          (via = Resolution.handoff ∧ r = td network address (timeUntil s₁.clock dl)) ∨
          (via = Resolution.cancelled ∧ r = ⟨none, s₃.ctx.Err⟩ ∧ s₃.ctx.Err ≠ none)) ∧
      (s₁.caller = CallerPc.waiting → s₁.ctx.Done = false →
        ∃ s₃, run d network address [Action.bg, Action.handoff] s₂ = some s₃ ∧
          s₃.caller = CallerPc.returned (td network address (timeUntil s₁.clock dl))
            Resolution.handoff) := by
  have hinv := inv_run_passed hlive hrun
  have hdl1 : s₁.ctx.Deadline = some dl := by
    simp only [Context.Deadline] at hdl ⊢
    rw [hinv.1, hdl]
  have hstep := dial_spawned_timeout d network address
    hbg htd hdl1
  have hnil : s₁.calls = [] := by
    obtain ⟨_, _, hm⟩ := hinv
    rw [hbg] at hm
    cases hc : s₁.caller with
    | returned r via => rw [hc] at hm; cases via <;> simp only [InvAt] at hm; exact hm.2.2.1
    | waiting => rw [hc] at hm; simp only [InvAt] at hm; exact hm.2.1
    | _ => rw [hc] at hm; simp only [InvAt] at hm
  have hinv2 := inv_step d network address ctx true _ _ _ hinv hstep
  refine ⟨_, hstep, by simp [hnil], rfl, timeUntil_saturates s₁.clock dl,
    timeUntil_in_range s₁.clock dl, ?_, ?_⟩
  · intro more s₃ hmore
    have hinv3 : Inv d network address ctx true s₃ :=
      run_induction (Inv d network address ctx true)
        (fun s a s' => inv_step d network address ctx true s a s') hinv2 hmore
    have hcalls := calls_run hinv2 hmore (by simp)
    have hout : s₃.bg.outcome = some (td network address (timeUntil s₁.clock dl)) :=
      outcome_run hinv2 hmore rfl
    refine ⟨by rw [hcalls]; simp [hnil], hout, ?_⟩
    intro r via hr
    rcases returned_shape hinv3 hcd hr with ⟨hv, hb⟩ | ⟨hv, hr1, hne, _⟩
    · rw [hb] at hout
      simp only [BgPc.outcome, Option.some.injEq] at hout
      exact Or.inl ⟨hv, hout⟩
    · exact Or.inr ⟨hv, hr1, hne⟩
  · intro hw hnd
    refine ⟨{ s₁ with
      calls := s₁.calls ++ [Call.DialTimeout network address (timeUntil s₁.clock dl)]
      bg := BgPc.sent (td network address (timeUntil s₁.clock dl))
      caller := CallerPc.returned (td network address (timeUntil s₁.clock dl))
        Resolution.handoff }, ?_, rfl⟩
    simp [run, step, dial, handoff, hw, hnd]

/-- Witness of C7 (amended) on the test `TestDialTimeout`: the call starts at
clock 0 with a deadline at 100, the background goroutine gets to dial at clock 30
and passes 70. -/
theorem C7_timeout_is_time_until_deadline_witness :
    run testDialTimeout "tcp" "127.0.0.1:12345"
        [Action.caller, Action.caller, Action.tick 30] (init ⟨some 100, none⟩ 0)
      = some ⟨30, ⟨some 100, none⟩, CallerPc.waiting, BgPc.spawned, [], []⟩ ∧
    ∃ s₂, step testDialTimeout "tcp" "127.0.0.1:12345"
        ⟨30, ⟨some 100, none⟩, CallerPc.waiting, BgPc.spawned, [], []⟩ Action.bg = some s₂ ∧
      s₂.calls = [Call.DialTimeout "tcp" "127.0.0.1:12345" 70] :=
  ⟨rfl,
    let ⟨s₂, h1, h2, _⟩ := C7_timeout_is_time_until_deadline testDialTimeout "tcp"
      "127.0.0.1:12345" ⟨some 100, none⟩ 100 0 (fun _ _ _ => ⟨none, some errPass⟩)
      [Action.caller, Action.tick 30]
      ⟨30, ⟨some 100, none⟩, CallerPc.waiting, BgPc.spawned, [], []⟩ rfl rfl rfl rfl rfl rfl
    ⟨s₂, h1, h2⟩⟩

/-- C10: in every state of every run where the underlying dial has returned (the
background goroutine is at its `select` with outcome `res`) and `DialContext`
has already returned, the caller returned by cancellation, `ctx.Done()` is
closed and the send on `c` cannot happen; the step of the background goroutine
is enabled, takes the case `<-ctx.Done()`, calls `Close` exactly when `res` has a
nil error and a non-nil connection (on that connection, and on nothing
otherwise), and leaves the goroutine terminated. -/
theorem C10_background_select_never_stuck (d : Dialer) (network address : String)
    (ctx : Context) (now : Time) (acts : List Action) (s : State) (res r : conAir)
    (via : Resolution) (hrun : run d network address acts (init ctx now) = some s)
    (hbg : s.bg = BgPc.selecting res) (hret : s.caller = CallerPc.returned r via) :
    via = Resolution.cancelled ∧ s.ctx.Done = true ∧ s.closed = [] ∧
    step d network address s Action.handoff = none ∧
    ∃ s', step d network address s Action.bg = some s' ∧
      s'.bg = BgPc.finished res ∧ s'.caller = CallerPc.returned r via ∧
      s'.closed = (if res.err = none then res.conn.toList else []) ∧
      step d network address s' Action.bg = none ∧
      step d network address s' Action.handoff = none := by
  obtain ⟨_, _, hm⟩ := inv_run hrun
  obtain ⟨clock, cx, caller, bg, calls, closed⟩ := s
  dsimp only at hm hbg hret ⊢
  subst hbg hret
  cases via <;> simp only [InvAt] at hm
  obtain ⟨_, ⟨_, hne⟩, _, hclosed⟩ := hm
  subst hclosed
  have hdone : cx.Done = true := by
    cases h : cx.err with
    | none => exact absurd h hne
    | some e => simp [Context.Done, h]
  refine ⟨rfl, hdone, rfl, by simp [step, handoff],
    ⟨clock, cx, CallerPc.returned r Resolution.cancelled, BgPc.finished res, calls,
      closeLate res []⟩,
    by simp [step, dial, hdone], rfl, rfl, closeLate_nil res, by simp [step, dial],
    by simp [step, handoff]⟩

/-- Witness of C10 on the test `TestDialLate`: the deadline expires during the
dial, the caller returns, the dial returns the sentinel. -/
theorem C10_background_select_never_stuck_witness :
    run (testDialLate 7) "tcp" "127.0.0.1:12345"
        [Action.caller, Action.caller, Action.bg, Action.cancel DeadlineExceeded,
          Action.caller, Action.bg] (init ⟨some 100, none⟩ 0)
      = some ⟨0, ⟨some 100, some DeadlineExceeded⟩,
          CallerPc.returned ⟨none, some DeadlineExceeded⟩ Resolution.cancelled,
          BgPc.selecting ⟨some 7, none⟩, [Call.Dial "tcp" "127.0.0.1:12345"], []⟩ ∧
    Resolution.cancelled = Resolution.cancelled ∧
    Context.Done ⟨some 100, some DeadlineExceeded⟩ = true :=
  ⟨rfl,
    let h := C10_background_select_never_stuck (testDialLate 7) "tcp" "127.0.0.1:12345"
      ⟨some 100, none⟩ 0
      [Action.caller, Action.caller, Action.bg, Action.cancel DeadlineExceeded,
        Action.caller, Action.bg]
      ⟨0, ⟨some 100, some DeadlineExceeded⟩,
        CallerPc.returned ⟨none, some DeadlineExceeded⟩ Resolution.cancelled,
        BgPc.selecting ⟨some 7, none⟩, [Call.Dial "tcp" "127.0.0.1:12345"], []⟩
      ⟨some 7, none⟩ ⟨none, some DeadlineExceeded⟩ Resolution.cancelled rfl rfl rfl
    ⟨h.1, h.2.1⟩⟩

/-- C3: when the caller has resolved by cancellation and the background dial has
returned a non-nil connection `c` with a nil error, the caller's result carries
no connection, `Close` has not yet been called, the background goroutine's step
is enabled and calls `Close` on `c`; and in every continuation the caller's
result stays what it was, it cannot receive from the channel, and the log of
closed connections is empty while the goroutine is at its `select` and exactly
`[c]` once it has passed it, so `c` is closed exactly once. -/
theorem C3_late_connection_closed_once (d : Dialer) (network address : String)
    (ctx : Context) (now : Time) (acts : List Action) (s : State) (r : conAir) (c : Conn)
    (hrun : run d network address acts (init ctx now) = some s)
    (hret : s.caller = CallerPc.returned r Resolution.cancelled)
    (hbg : s.bg = BgPc.selecting ⟨some c, none⟩) :
    r.conn = none ∧ s.closed = [] ∧
    (∃ s', step d network address s Action.bg = some s' ∧
      s'.bg = BgPc.finished ⟨some c, none⟩ ∧ s'.closed = [c]) ∧
    ∀ more s', run d network address more s = some s' →
      s'.caller = CallerPc.returned r Resolution.cancelled ∧
      step d network address s' Action.handoff = none ∧
      ((s'.bg = BgPc.selecting ⟨some c, none⟩ ∧ s'.closed = []) ∨
        (s'.bg = BgPc.finished ⟨some c, none⟩ ∧ s'.closed = [c])) := by
  have hinv := inv_run hrun
  have hlater : ∀ more s', run d network address more s = some s' →
      s'.caller = CallerPc.returned r Resolution.cancelled ∧
      step d network address s' Action.handoff = none ∧
      r.conn = none ∧
      ((s'.bg = BgPc.selecting ⟨some c, none⟩ ∧ s'.closed = []) ∨
        (s'.bg = BgPc.finished ⟨some c, none⟩ ∧ s'.closed = [c])) := by
    intro more s' hmore
    have hc := caller_returned_run hmore hret
    have hout : s'.bg.outcome = some ⟨some c, none⟩ :=
      outcome_run hinv hmore (by rw [hbg]; rfl)
    have hph := phase_run hinv hmore
    rw [hbg] at hph
    obtain ⟨_, _, hm⟩ := inv_run (run_append hrun hmore)
    obtain ⟨clock, cx, caller, bg, calls, closed⟩ := s'
    dsimp only at hm hc hout hph ⊢
    subst hc
    refine ⟨rfl, by simp [step, handoff], ?_⟩
    cases bg <;> simp only [InvAt] at hm <;>
      simp only [BgPc.outcome, Option.some.injEq, reduceCtorEq] at hout
    · simp [BgPc.phase] at hph
    · subst hout
      exact ⟨by rw [hm.2.1.1], Or.inl ⟨rfl, hm.2.2.2⟩⟩
    · subst hout
      exact ⟨by rw [hm.2.1.1], Or.inr ⟨rfl, by rw [hm.2.2.2]; rfl⟩⟩
  obtain ⟨_, _, hr, hcase⟩ := hlater [] s rfl
  have hclosed : s.closed = [] := by
    rcases hcase with h | h
    · exact h.2
    · rw [hbg] at h; cases h.1
  have hstep := dial_select_done d network address hbg
    (done_of_cancelled hinv hret)
  exact ⟨hr, hclosed, ⟨_, hstep, rfl, by simp [hclosed, closeLate]⟩,
    fun more s' h => ⟨(hlater more s' h).1, (hlater more s' h).2.1, (hlater more s' h).2.2.2⟩⟩

/-- Witness of C3 on the test `TestDialLateCancelled`: the context is cancelled
during the dial, the caller returns `context.Canceled`, then the dial returns the
sentinel, which the background goroutine closes. -/
theorem C3_late_connection_closed_once_witness :
    run (testDialLate 7) "tcp" "127.0.0.1:12345"
        [Action.caller, Action.caller, Action.bg, Action.cancel Canceled, Action.caller,
          Action.bg] (init ⟨none, none⟩ 0)
      = some ⟨0, ⟨none, some Canceled⟩,
          CallerPc.returned ⟨none, some Canceled⟩ Resolution.cancelled,
          BgPc.selecting ⟨some 7, none⟩, [Call.Dial "tcp" "127.0.0.1:12345"], []⟩ ∧
    ∃ s', step (testDialLate 7) "tcp" "127.0.0.1:12345"
        ⟨0, ⟨none, some Canceled⟩, CallerPc.returned ⟨none, some Canceled⟩ Resolution.cancelled,
          BgPc.selecting ⟨some 7, none⟩, [Call.Dial "tcp" "127.0.0.1:12345"], []⟩ Action.bg
        = some s' ∧ s'.bg = BgPc.finished ⟨some 7, none⟩ ∧ s'.closed = [7] :=
  ⟨rfl,
    (C3_late_connection_closed_once (testDialLate 7) "tcp" "127.0.0.1:12345" ⟨none, none⟩ 0
      [Action.caller, Action.caller, Action.bg, Action.cancel Canceled, Action.caller,
        Action.bg]
      ⟨0, ⟨none, some Canceled⟩, CallerPc.returned ⟨none, some Canceled⟩ Resolution.cancelled,
        BgPc.selecting ⟨some 7, none⟩, [Call.Dial "tcp" "127.0.0.1:12345"], []⟩
      ⟨none, some Canceled⟩ 7 rfl rfl rfl).2.2.1⟩

/-- When `ctx.Done()` fires while the underlying dial has not completed, in a
call that runs a background dial, the caller never receives the outcome of the
dial: the rendezvous on `c` stays disabled, a waiting caller can return at once,
and whatever the caller returns in any continuation is `(nil, ctx.Err())` with
the error the context terminated with. -/
theorem done_first_ctx_error (d : Dialer) (network address : String) (ctx : Context)
    (now : Time) (acts : List Action) (s : State) (e : GoError)
    (hlive : ctx.Err = none) (hcd : d.SimpleDialer.DialContext = none)
    (hrun : run d network address (Action.caller :: acts) (init ctx now) = some s)
    (hdone : s.ctx.Err = some e) (hdial : s.bg.phase ≤ 2) :
    (s.caller = CallerPc.waiting →
      ∃ s', step d network address s Action.caller = some s' ∧
        s'.caller = CallerPc.returned ⟨none, some e⟩ Resolution.cancelled) ∧
    ∀ more s', run d network address more s = some s' →
      s'.ctx.Err = some e ∧ step d network address s' Action.handoff = none ∧
      ∀ r via, s'.caller = CallerPc.returned r via →
        via = Resolution.cancelled ∧ r = ⟨none, some e⟩ := by
  have hinv := inv_run_passed hlive hrun
  simp only [Context.Err] at hdone
  refine ⟨?_, ?_⟩
  · intro hw
    refine ⟨{ s with caller := CallerPc.returned ⟨none, some e⟩ Resolution.cancelled }, ?_, rfl⟩
    simp [step, DialContext, hw, Context.Done, Context.Err, hdone]
  · intro more s' hmore
    have hnoh : ∀ r, s.caller ≠ CallerPc.returned r Resolution.handoff := by
      intro r hr
      rcases returned_shape hinv hcd hr with ⟨_, hb⟩ | ⟨hv, _⟩
      · rw [hb] at hdial; simp [BgPc.phase] at hdial
      · cases hv
    have key := run_induction
      (fun t => t.ctx.err = some e ∧ ∀ r, t.caller ≠ CallerPc.returned r Resolution.handoff)
      (fun t a t' ht hs => by
        obtain ⟨hte, htc⟩ := ht
        obtain ⟨clock, cx, caller, bg, calls, closed⟩ := t
        dsimp only at hte htc
        cases a with
        | tick dt =>
          simp only [step, Option.some.injEq] at hs
          subst hs
          exact ⟨hte, htc⟩
        | cancel e1 =>
          simp only [step, Option.some.injEq] at hs
          subst hs
          have hsame : cancel e1 ⟨clock, cx, caller, bg, calls, closed⟩
              = ⟨clock, cx, caller, bg, calls, closed⟩ := by simp [cancel, hte]
          rw [hsame]
          exact ⟨hte, htc⟩
        | handoff =>
          simp only [step, handoff] at hs
          cases caller with
          | waiting =>
            cases bg with
            | selecting res1 => simp [Context.Done, hte] at hs
            | _ => simp at hs
          | _ => simp at hs
        | caller =>
          simp only [step, DialContext] at hs
          cases caller with
          | entry =>
            simp only at hs
            split at hs <;> (simp only [Option.some.injEq] at hs; subst hs; simp [hte])
          | checked =>
            simp only at hs
            split at hs <;> (simp only [Option.some.injEq] at hs; subst hs; simp [hte])
          | waiting =>
            simp only at hs
            split at hs
            · simp only [Option.some.injEq] at hs; subst hs; simp [hte]
            · cases hs
          | returned r via => simp at hs
        | bg =>
          simp only [step, dial] at hs
          cases bg with
          | spawned =>
            simp only at hs
            split at hs <;> (simp only [Option.some.injEq] at hs; subst hs; exact ⟨hte, htc⟩)
          | dialing res1 =>
            simp only [Option.some.injEq] at hs
            subst hs
            exact ⟨hte, htc⟩
          | selecting res1 =>
            simp only at hs
            split at hs
            · simp only [Option.some.injEq] at hs; subst hs; exact ⟨hte, htc⟩
            · cases hs
          | _ => simp at hs)
      ⟨hdone, hnoh⟩ hmore
    obtain ⟨he', hnoh'⟩ := key
    have hinv' : Inv d network address ctx true s' :=
      run_induction (Inv d network address ctx true)
        (fun s a s' => inv_step d network address ctx true s a s') hinv hmore
    refine ⟨he', ?_, ?_⟩
    · simp only [step, handoff]
      split
      · simp [Context.Done, he']
      · rfl
    · intro r via hr
      rcases returned_shape hinv' hcd hr with ⟨hv, _⟩ | ⟨hv, hr1, _, _⟩
      · subst hv; exact absurd hr (hnoh' r)
      · refine ⟨hv, ?_⟩
        rw [hr1]
        simp only [Context.Err, he']

/-- C8, at the failing schedule: the dial of `testDialSucceed` completes while the
context is live and the caller is waiting; the context is cancelled afterwards,
before the background goroutine reaches its `select`; the caller's `select`
takes `<-ctx.Done()` and returns `(nil, context.Canceled)`, not the outcome
`(connPass, nil)` of the dial, and the background goroutine then closes
`connPass`. -/
theorem C8_dial_first_then_cancel :
    run testDialSucceed "tcp" "127.0.0.1:12345"
        [Action.caller, Action.caller, Action.bg, Action.bg] (init ⟨none, none⟩ 0)
      = some ⟨0, ⟨none, none⟩, CallerPc.waiting, BgPc.selecting ⟨some connPass, none⟩,
          [Call.Dial "tcp" "127.0.0.1:12345"], []⟩ ∧
    run testDialSucceed "tcp" "127.0.0.1:12345"
        [Action.cancel Canceled, Action.caller, Action.bg]
        ⟨0, ⟨none, none⟩, CallerPc.waiting, BgPc.selecting ⟨some connPass, none⟩,
          [Call.Dial "tcp" "127.0.0.1:12345"], []⟩
      = some ⟨0, ⟨none, some Canceled⟩,
          CallerPc.returned ⟨none, some Canceled⟩ Resolution.cancelled,
          BgPc.finished ⟨some connPass, none⟩, [Call.Dial "tcp" "127.0.0.1:12345"],
          [connPass]⟩ ∧
    (⟨none, some Canceled⟩ : conAir) ≠ testDialSucceed.SimpleDialer.Dial "tcp" "127.0.0.1:12345" :=
  ⟨rfl, rfl, by decide⟩

/-- C9: in every state of every run, at most one send on the channel `c` has
taken place, at most one `Close` has been called, a caller that received the
outcome over the channel has a background goroutine that returned right after
the send and nothing has been closed, a connection in a result returned to the
caller has not been closed, and when something has been closed the caller has
not received, and will not receive, from the channel. -/
theorem C9_one_delivery_or_one_close (d : Dialer) (network address : String) (ctx : Context)
    (now : Time) (acts : List Action) (s : State)
    (hrun : run d network address acts (init ctx now) = some s) :
    acts.count Action.handoff ≤ 1 ∧ s.closed.length ≤ 1 ∧
    (∀ r, s.caller = CallerPc.returned r Resolution.handoff →
      s.bg = BgPc.sent r ∧ s.closed = []) ∧
    (∀ r via c, s.caller = CallerPc.returned r via → r.conn = some c → s.closed = []) ∧
    (s.closed ≠ [] →
      (∃ res, s.bg = BgPc.finished res) ∧
      (∀ r, s.caller ≠ CallerPc.returned r Resolution.handoff) ∧
      step d network address s Action.handoff = none) := by
  have hcount : acts.count Action.handoff ≤ 1 := by
    have h := handoffs_run (inv_init d network address ctx now) hrun
    have h1 : (init ctx now).bg.handoffsLeft = 1 := rfl
    omega
  obtain ⟨_, _, hm⟩ := inv_run hrun
  obtain ⟨clock, cx, caller, bg, calls, closed⟩ := s
  dsimp only at hm ⊢
  have hlate : ∀ res : conAir, (closeLate res []).length ≤ 1 := by
    intro res
    rw [closeLate_nil]
    split
    · cases res.conn <;> simp
    · simp
  refine ⟨hcount, ?_⟩
  cases caller with
  | entry => cases bg <;> simp only [InvAt] at hm; simp [hm.2.2]
  | checked => cases bg <;> simp only [InvAt] at hm; simp [hm.2.2]
  | waiting =>
    cases bg <;> simp only [InvAt] at hm
    · simp [hm.2.2]
    · simp [hm.2.2]
    · simp [hm.2.2]
    · obtain ⟨_, _, _, hcl⟩ := hm
      subst hcl
      exact ⟨hlate _, by simp, by simp, fun _ => ⟨⟨_, rfl⟩, by simp, by simp [step, handoff]⟩⟩
  | returned r via =>
    cases via with
    | fastFail => cases bg <;> simp only [InvAt] at hm; simp [hm.2.2.1]
    | delegated => cases bg <;> simp only [InvAt] at hm; simp [hm.2.1]
    | handoff =>
      cases bg <;> simp only [InvAt] at hm
      obtain ⟨_, _, hcl, rfl⟩ := hm
      simp [hcl]
    | cancelled =>
      have hnc : ∀ c, r.conn = some c → Cancelled r cx → False := by
        intro c hc hC
        rw [hC.1] at hc
        cases hc
      cases bg <;> simp only [InvAt] at hm
      · simp [hm.2.2.2]
      · simp [hm.2.2.2]
      · simp [hm.2.2.2]
      · obtain ⟨_, hC, _, hcl⟩ := hm
        subst hcl
        exact ⟨hlate _, by simp, fun r1 via1 c h hc => by
          simp only [CallerPc.returned.injEq] at h
          obtain ⟨rfl, _⟩ := h
          exact absurd hC (fun hC => hnc c hc hC),
          fun _ => ⟨⟨_, rfl⟩, by simp, by simp [step, handoff]⟩⟩

/-- Witness of C9: the caller receives the outcome over the channel; the one send
is the only one and nothing is closed. -/
theorem C9_one_delivery_or_one_close_witness :
    run testDialSucceed "tcp" "127.0.0.1:12345"
        [Action.caller, Action.caller, Action.bg, Action.bg, Action.handoff]
        (init ⟨none, none⟩ 0)
      = some ⟨0, ⟨none, none⟩, CallerPc.returned ⟨some connPass, none⟩ Resolution.handoff,
          BgPc.sent ⟨some connPass, none⟩, [Call.Dial "tcp" "127.0.0.1:12345"], []⟩ ∧
    List.count Action.handoff
      [Action.caller, Action.caller, Action.bg, Action.bg, Action.handoff] ≤ 1 ∧
    ([] : List Conn).length ≤ 1 :=
  ⟨rfl,
    let h := C9_one_delivery_or_one_close testDialSucceed "tcp" "127.0.0.1:12345"
      ⟨none, none⟩ 0 [Action.caller, Action.caller, Action.bg, Action.bg, Action.handoff]
      ⟨0, ⟨none, none⟩, CallerPc.returned ⟨some connPass, none⟩ Resolution.handoff,
        BgPc.sent ⟨some connPass, none⟩, [Call.Dial "tcp" "127.0.0.1:12345"], []⟩ rfl
    ⟨h.1, h.2.1⟩⟩

end contextual
